import Mathlib

/-!
Verification development for the GraphNet repository.

A shallow embedding of the ingestion / graph-storage core:
* `src/graph/embedded_graph_manager.py` (`EmbeddedGraphManager`),
* the normalization and ingestion loop of `src/main.py` (`GraphNet.process_document`),
* `src/ai/document_processor.py` (`DocumentProcessor.chunk_text`),
* `src/ai/entity_extractor.py` (`EntityExtractor`).

Python strings are Lean `String`s (operated on through their `List Char`
data, with the ASCII behaviour of `str.strip` / `str.title` / `str.lower`
/ `str.upper`); Python dicts are insertion-ordered association lists;
`datetime.now()` results are passed in explicitly as strings; the pickle
snapshot used by the embedded backend is modelled by an explicit lossless
token-level codec; the LLM call and `json.loads` are oracles passed as
arguments (`Except`/`Option` values), which also makes every Python
`try/except` boundary an ordinary total function.
-/

namespace GraphNet

/-- A Python attribute value as it occurs in the graph code: a string or `None`.
(Entity/relationship properties flowing through the pipeline are strings;
`source=None` stores a `None` value.) -/
inductive PyVal where
  | str (s : String)
  | none
  deriving DecidableEq

/-- A Python dict with string keys, modelled as an insertion-ordered
association list with (invariantly) unique keys. -/
abbrev PyDict := List (String × PyVal)

/-- `d.get(k)` / `d[k]` lookup. -/
def dictGet (d : PyDict) (k : String) : Option PyVal :=
  match d with
  | [] => Option.none
  | (k', v) :: rest => if k' = k then some v else dictGet rest k

/-- `d[k] = v`: overwrite in place if the key exists (keeping its position,
as Python dicts do), otherwise append. -/
def dictSet (d : PyDict) (k : String) (v : PyVal) : PyDict :=
  match d with
  | [] => [(k, v)]
  | (k', v') :: rest => if k' = k then (k', v) :: rest else (k', v') :: dictSet rest k v

/-- `d.update(u)`: set every key/value pair of `u` in order. -/
def dictUpdate (d : PyDict) (u : PyDict) : PyDict :=
  u.foldl (fun acc kv => dictSet acc kv.1 kv.2) d

/-- `d.get(k, default)`. -/
def dictGetD (d : PyDict) (k : String) (dflt : PyVal) : PyVal :=
  (dictGet d k).getD dflt

/-- The `networkx.MultiDiGraph` held by `EmbeddedGraphManager`: nodes in
insertion order (keyed by node id), and a multiset of directed edges in
insertion order, each carrying its attribute dict. -/
structure Graph where
  nodes : List (String × PyDict)
  edges : List (String × String × PyDict)
  deriving DecidableEq

def emptyGraph : Graph := ⟨[], []⟩

/-- `self.graph.has_node(node_id)`. -/
def hasNode (g : Graph) (nid : String) : Bool :=
  g.nodes.any (fun p => p.1 = nid)

/-- `self.graph.nodes[nid]` (empty dict if absent; never hit in the code). -/
def nodeAttrs (g : Graph) (nid : String) : PyDict :=
  ((g.nodes.find? (fun p => p.1 = nid)).map Prod.snd).getD []

/-- `self.graph.add_node(nid, **attrs)` (only called when the node is absent). -/
def addNode (g : Graph) (nid : String) (attrs : PyDict) : Graph :=
  { g with nodes := g.nodes ++ [(nid, attrs)] }

/-- Replace the attribute dict of node `nid` by `f` applied to it. -/
def modifyNode (g : Graph) (nid : String) (f : PyDict → PyDict) : Graph :=
  { g with nodes := g.nodes.map (fun p => if p.1 = nid then (p.1, f p.2) else p) }

/-- `self.graph.add_edge(u, v, **attrs)` on a `MultiDiGraph`: a new parallel
edge is appended unconditionally. -/
def addEdge (g : Graph) (u v : String) (attrs : PyDict) : Graph :=
  { g with edges := g.edges ++ [(u, v, attrs)] }

/-! ## Snapshot codec

`EmbeddedGraphManager._persist` / `connect` pickle and unpickle the graph.
We model the pickle stream at token level: an explicit, executable codec
whose losslessness is proved below (rather than assumed). -/

inductive Tok where
  | nat (n : Nat)
  | str (s : String)
  | pnone
  deriving DecidableEq

abbrev Blob := List Tok

def encPyVal : PyVal → Blob
  | .str s => [Tok.str s]
  | .none => [Tok.pnone]

def encPair (p : String × PyVal) : Blob :=
  Tok.str p.1 :: encPyVal p.2

def encDict (d : PyDict) : Blob :=
  Tok.nat d.length :: d.flatMap encPair

def encNode (p : String × PyDict) : Blob :=
  Tok.str p.1 :: encDict p.2

def encEdge (e : String × String × PyDict) : Blob :=
  Tok.str e.1 :: Tok.str e.2.1 :: encDict e.2.2

def encGraph (g : Graph) : Blob :=
  (Tok.nat g.nodes.length :: g.nodes.flatMap encNode)
    ++ (Tok.nat g.edges.length :: g.edges.flatMap encEdge)

def decPyVal : Blob → Option (PyVal × Blob)
  | Tok.str s :: r => some (.str s, r)
  | Tok.pnone :: r => some (.none, r)
  | _ => Option.none

def decPair : Blob → Option ((String × PyVal) × Blob)
  | Tok.str k :: r =>
      match decPyVal r with
      | some (v, r') => some ((k, v), r')
      | Option.none => Option.none
  | _ => Option.none

def decCount (dec : Blob → Option (α × Blob)) : Nat → Blob → Option (List α × Blob)
  | 0, b => some ([], b)
  | n + 1, b =>
      match dec b with
      | some (x, b') =>
          match decCount dec n b' with
          | some (xs, b'') => some (x :: xs, b'')
          | Option.none => Option.none
      | Option.none => Option.none

def decDict : Blob → Option (PyDict × Blob)
  | Tok.nat n :: r => decCount decPair n r
  | _ => Option.none

def decNode : Blob → Option ((String × PyDict) × Blob)
  | Tok.str nid :: r =>
      match decDict r with
      | some (d, r') => some ((nid, d), r')
      | Option.none => Option.none
  | _ => Option.none

def decEdge : Blob → Option ((String × String × PyDict) × Blob)
  | Tok.str u :: Tok.str v :: r =>
      match decDict r with
      | some (d, r') => some ((u, v, d), r')
      | Option.none => Option.none
  | _ => Option.none

def decGraph (b : Blob) : Option Graph :=
  match b with
  | Tok.nat n :: r =>
      match decCount decNode n r with
      | some (ns, r') =>
          match r' with
          | Tok.nat m :: r'' =>
              match decCount decEdge m r'' with
              | some (es, r''') => if r''' = [] then some ⟨ns, es⟩ else Option.none
              | Option.none => Option.none
          | _ => Option.none
      | Option.none => Option.none
  | _ => Option.none

/-! ## The embedded graph manager -/

/-- The state of an `EmbeddedGraphManager` together with the contents of its
persist file (`Option.none` = file absent). -/
structure EGM where
  graph : Graph
  file : Option Blob
  connected : Bool
  deriving DecidableEq

/-- `EmbeddedGraphManager._persist`: dump the whole graph to the file. -/
def persistOp (s : EGM) : EGM :=
  { s with file := some (encGraph s.graph) }

/-- `EmbeddedGraphManager.connect`: load the persisted graph if the file
exists, otherwise start with a fresh empty graph; set the connected flag.
(A file that fails to unpickle hits the outer `except` handler: the flag is
cleared and `False` is returned.) -/
def connectOp (s : EGM) : Bool × EGM :=
  match s.file with
  | some b =>
      match decGraph b with
      | some g => (true, { s with graph := g, connected := true })
      | Option.none => (false, { s with connected := false })
  | Option.none => (true, { s with graph := emptyGraph, connected := true })

/-- `EmbeddedGraphManager.create_entity`.  `now` stands for the
`datetime.now().isoformat()` string taken during the call. -/
def create_entity (s : EGM) (entity_name entity_type : String)
    (properties : PyDict) (source : Option PyVal) (now : String) : Bool × EGM :=
  if s.connected = false then (false, s)
  else
    let node_id := entity_type ++ ":" ++ entity_name
    let attrs := dictSet (dictSet (dictSet properties "name" (.str entity_name))
        "type" (.str entity_type)) "source" (source.getD PyVal.none)
    if hasNode s.graph node_id then
      let g := modifyNode s.graph node_id
        (fun d => dictSet (dictUpdate d attrs) "updated" (.str now))
      (true, persistOp { s with graph := g })
    else
      let g := addNode s.graph node_id (dictSet attrs "created" (.str now))
      (true, persistOp { s with graph := g })

/-- `EmbeddedGraphManager.create_relationship`.  Missing endpoints are
auto-created by nested `create_entity` calls (with `properties=None`,
`source=None`); `now` stands for the timestamps taken during the call. -/
def create_relationship (s : EGM) (source_entity source_type target_entity target_type
    relationship_type : String) (properties : PyDict) (now : String) : Bool × EGM :=
  if s.connected = false then (false, s)
  else
    let source_id := source_type ++ ":" ++ source_entity
    let target_id := target_type ++ ":" ++ target_entity
    let s1 := if hasNode s.graph source_id then s
      else (create_entity s source_entity source_type [] Option.none now).2
    let s2 := if hasNode s1.graph target_id then s1
      else (create_entity s1 target_entity target_type [] Option.none now).2
    let attrs := dictSet (dictSet properties "type" (.str relationship_type))
        "created" (.str now)
    (true, persistOp { s2 with graph := addEdge s2.graph source_id target_id attrs })

/-- `EmbeddedGraphManager.get_entity`: exact node-id hit when a type is
given, then (in every case) a linear scan for the first node whose `name`
attribute equals the requested name. -/
def get_entity (s : EGM) (entity_name : String) (entity_type : Option String) :
    Option PyDict :=
  if s.connected = false then Option.none
  else
    let exact : Option PyDict :=
      match entity_type with
      | some t =>
          let node_id := t ++ ":" ++ entity_name
          if hasNode s.graph node_id then some (nodeAttrs s.graph node_id) else Option.none
      | Option.none => Option.none
    match exact with
    | some d => some d
    | Option.none =>
        (s.graph.nodes.find? (fun p => dictGet p.2 "name" = some (.str entity_name))).map
          Prod.snd

/-- Worker for `firstDedup`, structurally recursive on a fuel bound (the
fuel is always the list length, which dominates the recursion depth). -/
def firstDedupGo : Nat → List String → List String
  | 0, _ => []
  | _ + 1, [] => []
  | n + 1, x :: xs => x :: firstDedupGo n (xs.filter (fun y => y ≠ x))

/-- Distinct-element list in order of first occurrence (successor /
predecessor iteration order of a `MultiDiGraph`). -/
def firstDedup (l : List String) : List String := firstDedupGo l.length l

/-- `self.graph.successors(nid)`. -/
def successors (g : Graph) (nid : String) : List String :=
  firstDedup ((g.edges.filter (fun e => e.1 = nid)).map (fun e => e.2.1))

/-- `self.graph.predecessors(nid)`. -/
def predecessors (g : Graph) (nid : String) : List String :=
  firstDedup ((g.edges.filter (fun e => e.2.1 = nid)).map (fun e => e.1))

/-- `self.graph.get_edge_data(u, v).values()`. -/
def edgeDataBetween (g : Graph) (u v : String) : List PyDict :=
  (g.edges.filter (fun e => e.1 = u ∧ e.2.1 = v)).map (fun e => e.2.2)

/-- One element of the list returned by `get_entity_relationships`. -/
structure RelEntry where
  relationship : PyVal
  entity : PyVal
  labels : List PyVal
  direction : String
  deriving DecidableEq

/-- `EmbeddedGraphManager.get_entity_relationships`. -/
def get_entity_relationships (s : EGM) (entity_name : String)
    (entity_type : Option String) : List RelEntry :=
  if s.connected = false then []
  else
    let node_id : Option String :=
      match entity_type with
      | some t => some (t ++ ":" ++ entity_name)
      | Option.none =>
          (s.graph.nodes.find?
            (fun p => dictGet p.2 "name" = some (.str entity_name))).map Prod.fst
    match node_id with
    | Option.none => []
    | some nid =>
        if hasNode s.graph nid = false then []
        else
          let outgoing := (successors s.graph nid).flatMap (fun target =>
            (edgeDataBetween s.graph nid target).map (fun d =>
              { relationship := dictGetD d "type" (.str "RELATED_TO")
                entity := dictGetD (nodeAttrs s.graph target) "name" (.str "Unknown")
                labels := [dictGetD (nodeAttrs s.graph target) "type" (.str "Unknown")]
                direction := "outgoing" }))
          let incoming := (predecessors s.graph nid).flatMap (fun source =>
            (edgeDataBetween s.graph source nid).map (fun d =>
              { relationship := dictGetD d "type" (.str "RELATED_TO")
                entity := dictGetD (nodeAttrs s.graph source) "name" (.str "Unknown")
                labels := [dictGetD (nodeAttrs s.graph source) "type" (.str "Unknown")]
                direction := "incoming" }))
          outgoing ++ incoming

/-- A node record of `get_graph_data`. -/
structure GNode where
  id : String
  label : PyVal
  type : PyVal
  properties : PyDict
  deriving DecidableEq

/-- An edge record of `get_graph_data`. -/
structure GEdge where
  source : String
  target : String
  type : PyVal
  properties : PyDict
  deriving DecidableEq

/-- `EmbeddedGraphManager.get_graph_data`: the first `limit` nodes, plus
every edge both of whose endpoints fall inside that node sample. -/
def get_graph_data (s : EGM) (limit : Nat) : List GNode × List GEdge :=
  if s.connected = false then ([], [])
  else
    let node_list := (s.graph.nodes.map Prod.fst).take limit
    let nodes := node_list.map (fun nid =>
      { id := nid
        label := dictGetD (nodeAttrs s.graph nid) "name" (.str "Unknown")
        type := dictGetD (nodeAttrs s.graph nid) "type" (.str "Unknown")
        properties := nodeAttrs s.graph nid : GNode })
    let edges := (s.graph.edges.filter
        (fun e => node_list.contains e.1 ∧ node_list.contains e.2.1)).map
      (fun e => { source := e.1, target := e.2.1
                  type := dictGetD e.2.2 "type" (.str "RELATED_TO")
                  properties := e.2.2 : GEdge })
    (nodes, edges)

/-! ## Name normalization (`GraphNet.process_document`, src/main.py 165-196)

The same three-step pipeline is inlined three times in `process_document`
(for entity names and for both relationship endpoints): strip, drop a
case-insensitive leading `"the "`, title-case. -/

/-- `str.isspace` characters relevant at the ASCII level (matches
`Char.isWhitespace`). -/
def isSp (c : Char) : Bool := c.isWhitespace

/-- `s.lstrip()` on the character list. -/
def lstripChars (l : List Char) : List Char := l.dropWhile isSp

/-- `s.rstrip()` on the character list. -/
def rstripChars (l : List Char) : List Char := (l.reverse.dropWhile isSp).reverse

/-- `s.strip()` on the character list. -/
def stripChars (l : List Char) : List Char := rstripChars (lstripChars l)

/-- `clean_name.lower().startswith("the ")` followed by
`clean_name[4:].strip()` when it matches. -/
def dropThe (l : List Char) : List Char :=
  if (l.take 4).map Char.toLower = ['t', 'h', 'e', ' '] then stripChars (l.drop 4) else l

/-- The worker of `str.title()`: the flag records whether the previous
character was cased (an ASCII letter). -/
def titleGo (prevAlpha : Bool) : List Char → List Char
  | [] => []
  | c :: rest =>
      if c.isAlpha then
        (if prevAlpha then c.toLower else c.toUpper) :: titleGo true rest
      else c :: titleGo false rest

/-- `s.title()` on the character list. -/
def titleChars (l : List Char) : List Char := titleGo false l

/-- The full normalization applied to each entity name and relationship
endpoint in `process_document`: strip, drop a leading `"the "` (and
re-strip), then title-case. -/
def normChars (l : List Char) : List Char := titleChars (dropThe (stripChars l))

/-- String-level wrapper of the normalization pipeline. -/
def normalizeName (s : String) : String := ⟨normChars s.data⟩

/-- `rel["type"].replace(" ", "_").upper()` (src/main.py line 203). -/
def relTypeNorm (s : String) : String :=
  ⟨(s.data.map (fun c => if c = ' ' then '_' else c)).map Char.toUpper⟩

/-! ## Chunking (`DocumentProcessor.chunk_text`) -/

/-- The `while start < text_length` loop of `chunk_text`, advancing `start`
by `step = chunk_size - chunk_overlap` each iteration and emitting the
slice `text[start : start + chunk_size]`.  The Python loop never terminates
when `step = 0` (i.e. `overlap >= size`, where Python's negative step also
lands after integer subtraction on `Nat`); that divergent case is excluded
by the guard and returns what has been produced so far. -/
def chunkGo (text : List Char) (size step : Nat) (start : Nat) : List (List Char) :=
  if _h : start < text.length ∧ 0 < step then
    ((text.drop start).take size) :: chunkGo text size step (start + step)
  else []
termination_by text.length - start
decreasing_by omega

/-- `DocumentProcessor.chunk_text text size overlap` (explicit-argument
form; the `None` defaults read `config.CHUNK_SIZE` / `config.CHUNK_OVERLAP`). -/
def chunk_text (text : String) (chunk_size chunk_overlap : Nat) : List String :=
  (chunkGo text.data chunk_size (chunk_size - chunk_overlap) 0).map List.asString

/-- The spec's ceiling division `ceil(a / b)` on naturals. -/
def ceilDiv (a b : Nat) : Nat := (a + b - 1) / b

/-! ## Extraction client (`EntityExtractor.extract_entities_and_relationships`)

The LLM round-trip and `json.loads` are oracles passed in as arguments: the
LLM call either returns the response content or raises (`Except`), and the
JSON parser either returns a value or raises `JSONDecodeError` (`Option`).
Every `except` boundary of the Python code then becomes a branch of a total
function. -/

/-- A parsed JSON value (the result of `json.loads`). -/
inductive Jv where
  | null
  | bool (b : Bool)
  | num (n : Int)
  | str (s : String)
  | arr (l : List Jv)
  | obj (kvs : List (String × Jv))

/-- `kvs.get(k, dflt)` for a parsed JSON object. -/
def jGetD (kvs : List (String × Jv)) (k : String) (dflt : Jv) : Jv :=
  match kvs.find? (fun p => p.1 = k) with
  | some p => p.2
  | Option.none => dflt

/-- `re.sub(marker + r'\s*', '', text)` for a literal marker: remove every
(leftmost, non-overlapping) occurrence of the marker together with the
whitespace run following it. -/
def removeMarker (marker : List Char) : List Char → List Char
  | [] => []
  | c :: rest =>
      if _h : marker ≠ [] ∧ (c :: rest).take marker.length = marker then
        removeMarker marker (((c :: rest).drop marker.length).dropWhile isSp)
      else c :: removeMarker marker rest
termination_by l => l.length
decreasing_by
  · have h1 : marker.length ≤ rest.length + 1 := by
      have h2 := congrArg List.length _h.2
      simp [List.length_take, List.length_cons] at h2
      omega
    have h2 : 0 < marker.length := List.length_pos.mpr _h.1
    have h3 : (((c :: rest).drop marker.length).dropWhile isSp).length
        ≤ ((c :: rest).drop marker.length).length :=
      (List.dropWhile_sublist _).length_le
    simp [List.length_drop, List.length_cons] at h1 h3 ⊢
    omega
  · simp

/-- The response clean-up of the extractor: `response.content.strip()`,
strip ```` ```json ```` fences, strip ```` ``` ```` fences, final
`.strip()`. -/
def cleanResponse (content : String) : String :=
  ⟨stripChars (removeMarker "```".data (removeMarker "```json".data
      (stripChars content.data)))⟩

/-- The dict returned by `extract_entities_and_relationships`.  `success`
is an `Option` because the not-initialized branch returns a dict with no
`"success"` key at all. -/
structure ExtractOut where
  entities : Jv
  relationships : Jv
  success : Option Bool
  error : Option String

/-- `EntityExtractor.extract_entities_and_relationships`, as a function of
the initialized flag and the two oracles.  `llm` is the outcome of
everything through `self.llm.invoke(messages).content` (`Except.error e` =
any exception raised below the outer `try`, caught by `except Exception as
e`); `parse` is `json.loads`.  When the parsed value is not a dict, the
subsequent `result_dict.get(...)` raises `AttributeError`, absorbed by the
same outer handler. -/
def extract_entities_and_relationships (initialized : Bool)
    (llm : Except String String) (parse : String → Option Jv) : ExtractOut :=
  if initialized = false then
    { entities := .arr [], relationships := .arr [], success := Option.none
      error := some "Not initialized" }
  else
    match llm with
    | .error e =>
        { entities := .arr [], relationships := .arr [], success := some false
          error := some e }
    | .ok content =>
        match parse (cleanResponse content) with
        | Option.none =>
            { entities := .arr [], relationships := .arr [], success := some false
              error := some "Failed to parse LLM response" }
        | some (.obj kvs) =>
            { entities := jGetD kvs "entities" (.arr [])
              relationships := jGetD kvs "relationships" (.arr [])
              success := some true, error := Option.none }
        | some _ =>
            { entities := .arr [], relationships := .arr [], success := some false
              error := some "AttributeError" }

/-! ## Extraction aggregation (`EntityExtractor.extract_from_chunks`)

The aggregation loop runs over the per-chunk results of
`extract_entities_and_relationships`.  By the time the loop indexes
`entity['name']` / `entity['type']`, the entities are the well-formed dicts
of the extraction prompt's schema, modelled as records. -/

/-- An extracted entity dict (`name` / `type` / `description`). -/
structure EntityRec where
  name : String
  type : String
  description : String
  deriving DecidableEq

/-- An extracted relationship dict. -/
structure RelRec where
  source : String
  target : String
  type : String
  description : String
  deriving DecidableEq

/-- One per-chunk extraction result as consumed by the aggregation loop.
`success` mirrors `result.get("success")` (`Option.none` = key absent,
falsy). -/
structure ChunkResult where
  success : Option Bool
  entities : List EntityRec
  relationships : List RelRec
  deriving DecidableEq

/-- Python truthiness of `result.get("success")`. -/
def truthySuccess (r : ChunkResult) : Bool := r.success = some true

/-- `entity_key = f"{entity['name']}_{entity['type']}"` — computed on the
raw, pre-normalization name. -/
def entityKey (e : EntityRec) : String := e.name ++ "_" ++ e.type

/-- The inner dedup step: insert into the `all_entities` (insertion-ordered)
dict only if the key is not yet present. -/
def entStep (acc : List (String × EntityRec)) (e : EntityRec) :
    List (String × EntityRec) :=
  if acc.any (fun p => p.1 = entityKey e) then acc else acc ++ [(entityKey e, e)]

/-- The `for i, chunk in enumerate(chunks)` loop of `extract_from_chunks`,
over the per-chunk results: successful results contribute their entities
(deduplicated by key, first wins) and their relationships (concatenated);
failed results contribute nothing. -/
def aggLoop (results : List ChunkResult) (allE : List (String × EntityRec))
    (allR : List RelRec) : List (String × EntityRec) × List RelRec :=
  match results with
  | [] => (allE, allR)
  | r :: rest =>
      if truthySuccess r then
        aggLoop rest (r.entities.foldl entStep allE) (allR ++ r.relationships)
      else aggLoop rest allE allR

/-- The aggregate returned by `extract_from_chunks` (entities =
`list(all_entities.values())`, relationships concatenated, `success=True`
at batch level). -/
structure AggOut where
  entities : List EntityRec
  relationships : List RelRec
  success : Bool
  chunks_processed : Nat
  deriving DecidableEq

/-- `EntityExtractor.extract_from_chunks`, as a function of the per-chunk
extraction results (the per-chunk LLM calls and the rate-limit sleeps are
the effects that produce this list). -/
def extract_from_chunks (results : List ChunkResult) : AggOut :=
  let (es, rs) := aggLoop results [] []
  { entities := es.map Prod.snd, relationships := rs, success := true
    chunks_processed := results.length }

/-- The entity stream the aggregation dedups: entities of the successful
chunks, in chunk order. -/
def successfulEntities (results : List ChunkResult) : List EntityRec :=
  (results.filter truthySuccess).flatMap (fun r => r.entities)

/-- Specification-level first-wins dedup: keep each entity whose key has
not occurred before. -/
def firstWins : List EntityRec → List EntityRec
  | [] => []
  | e :: rest => e :: firstWins (rest.filter (fun e2 => entityKey e2 ≠ entityKey e))
termination_by l => l.length
decreasing_by
  exact Nat.lt_succ_of_le (List.length_filter_le _ _)

/-! ## The ingestion loop of `GraphNet.process_document` (src/main.py 161-207)

Step 4 of `process_document` on the embedded backend: normalize each entity
name and upsert it (properties = the description, source = the filename),
then normalize each relationship's endpoints and record the edge with both
endpoint types hard-coded to `"Entity"` and the relationship type
upper-cased with underscores. -/

/-- The `for entity in entities` loop. -/
def addEntitiesLoop (s : EGM) (filename now : String) :
    List EntityRec → Nat × EGM
  | [] => (0, s)
  | e :: rest =>
      let clean_name := normalizeName e.name
      let (ok, s') := create_entity s clean_name e.type
        [("description", .str e.description)] (some (.str filename)) now
      let (n, s'') := addEntitiesLoop s' filename now rest
      ((if ok then 1 else 0) + n, s'')

/-- The `for rel in relationships` loop. -/
def addRelationshipsLoop (s : EGM) (now : String) : List RelRec → Nat × EGM
  | [] => (0, s)
  | r :: rest =>
      let source_clean := normalizeName r.source
      let target_clean := normalizeName r.target
      let (ok, s') := create_relationship s source_clean "Entity" target_clean "Entity"
        (relTypeNorm r.type) [("description", .str r.description)] now
      let (n, s'') := addRelationshipsLoop s' now rest
      ((if ok then 1 else 0) + n, s'')

/-- Step 4 of `process_document`: add all entities, then all relationships;
`now` stands for the timestamps taken during the run. -/
def processExtraction (s : EGM) (filename : String) (entities : List EntityRec)
    (relationships : List RelRec) (now : String) : EGM :=
  let (_, s1) := addEntitiesLoop s filename now entities
  let (_, s2) := addRelationshipsLoop s1 now relationships
  s2

/-! ## Losslessness of the snapshot codec -/

theorem decPyVal_enc (v : PyVal) (r : Blob) : decPyVal (encPyVal v ++ r) = some (v, r) := by
  cases v <;> rfl

theorem decPair_enc (p : String × PyVal) (r : Blob) :
    decPair (encPair p ++ r) = some (p, r) := by
  obtain ⟨k, v⟩ := p
  simp [encPair, decPair, decPyVal_enc]

theorem decCount_enc {α : Type} (dec : Blob → Option (α × Blob)) (enc : α → Blob)
    (H : ∀ x r, dec (enc x ++ r) = some (x, r)) :
    ∀ (l : List α) (r : Blob), decCount dec l.length (l.flatMap enc ++ r) = some (l, r)
  | [], _ => rfl
  | x :: xs, r => by
      simp only [List.flatMap_cons, List.length_cons, List.append_assoc, decCount, H]
      rw [decCount_enc dec enc H xs r]

theorem decDict_enc (d : PyDict) (r : Blob) : decDict (encDict d ++ r) = some (d, r) := by
  simpa [encDict, decDict] using decCount_enc decPair encPair decPair_enc d r

theorem decNode_enc (p : String × PyDict) (r : Blob) :
    decNode (encNode p ++ r) = some (p, r) := by
  obtain ⟨nid, d⟩ := p
  simp [encNode, decNode, decDict_enc]

theorem decEdge_enc (e : String × String × PyDict) (r : Blob) :
    decEdge (encEdge e ++ r) = some (e, r) := by
  obtain ⟨u, v, d⟩ := e
  simp [encEdge, decEdge, decDict_enc]

theorem decGraph_encGraph (g : Graph) : decGraph (encGraph g) = some g := by
  obtain ⟨ns, es⟩ := g
  have h1 := decCount_enc decNode encNode decNode_enc ns
    (Tok.nat es.length :: es.flatMap encEdge)
  have h2 := decCount_enc decEdge encEdge decEdge_enc es []
  simp only [List.append_nil] at h2
  simp [encGraph, decGraph, h1, h2]

/-- C9: snapshot round-trip on the embedded backend — persisting the graph
to the snapshot file (`_persist`) and then loading it via `connect`
reproduces exactly the node/edge multiset (identity keys, edges and all
properties) that was saved, and reports a successful connection. -/
theorem snapshot_roundtrip (s : EGM) :
    (connectOp (persistOp s)).1 = true ∧
    (connectOp (persistOp s)).2.graph = s.graph ∧
    (connectOp (persistOp s)).2.connected = true := by
  simp [connectOp, persistOp, decGraph_encGraph]

/-- C7: `get_graph_data limit` returns at most `limit` nodes, and every
returned edge has both its source and its target among the ids of the
returned nodes. -/
theorem get_graph_data_sampling (s : EGM) (limit : Nat) :
    (get_graph_data s limit).1.length ≤ limit ∧
    ∀ e ∈ (get_graph_data s limit).2,
      (∃ nd ∈ (get_graph_data s limit).1, nd.id = e.source) ∧
      (∃ nd ∈ (get_graph_data s limit).1, nd.id = e.target) := by
  unfold get_graph_data
  split
  · simp
  · refine ⟨?_, ?_⟩
    · simp [List.length_take]
    · intro e he
      simp only [List.mem_map, List.mem_filter, decide_eq_true_eq] at he
      obtain ⟨a, ⟨-, hcond⟩, rfl⟩ := he
      have hc1 : a.1 ∈ (s.graph.nodes.map Prod.fst).take limit := by
        simpa using hcond.1
      have hc2 : a.2.1 ∈ (s.graph.nodes.map Prod.fst).take limit := by
        simpa using hcond.2
      constructor
      · exact ⟨_, List.mem_map_of_mem _ hc1, rfl⟩
      · exact ⟨_, List.mem_map_of_mem _ hc2, rfl⟩

/-- C10: an uninitialized extractor returns the dict
`{"entities": [], "relationships": [], "error": "Not initialized"}` with no
`"success"` key at all (`success = Option.none` in the record model), while
every path of an initialized extractor returns a dict that does carry an
explicit `success` value. -/
theorem extract_not_initialized_shape (llm : Except String String)
    (parse : String → Option Jv) :
    extract_entities_and_relationships false llm parse =
      { entities := .arr [], relationships := .arr [], success := Option.none
        error := some "Not initialized" } ∧
    (extract_entities_and_relationships true llm parse).success ≠ Option.none := by
  refine ⟨rfl, ?_⟩
  unfold extract_entities_and_relationships
  cases llm with
  | error e => simp
  | ok content =>
      simp only [Bool.true_eq_false, if_false]
      cases hp : parse (cleanResponse content) with
      | none => simp
      | some j => cases j <;> simp

/-- C8: the extraction client absorbs failures — whenever the LLM call
raises, or the response does not parse as JSON, or the parsed value is not
a JSON object (so the subsequent `.get` raises `AttributeError`), the
caller receives a plain result with `success=False`, empty entity and
relationship lists, and an error marker, never an exception. -/
theorem extract_failure_absorption (llm : Except String String)
    (parse : String → Option Jv)
    (h : (∃ e, llm = .error e) ∨
         (∃ s, llm = .ok s ∧ parse (cleanResponse s) = Option.none) ∨
         (∃ s j, llm = .ok s ∧ parse (cleanResponse s) = some j ∧
            ∀ kvs, j ≠ .obj kvs)) :
    (extract_entities_and_relationships true llm parse).success = some false ∧
    (extract_entities_and_relationships true llm parse).entities = .arr [] ∧
    (extract_entities_and_relationships true llm parse).relationships = .arr [] ∧
    (extract_entities_and_relationships true llm parse).error ≠ Option.none := by
  unfold extract_entities_and_relationships
  rcases h with ⟨e, rfl⟩ | ⟨s, rfl, hp⟩ | ⟨s, j, rfl, hp, hj⟩
  · simp
  · simp [hp]
  · cases j with
    | obj kvs => exact absurd rfl (hj kvs)
    | null => simp [hp]
    | bool b => simp [hp]
    | num n => simp [hp]
    | str x => simp [hp]
    | arr l => simp [hp]

/-- C8 witness: the failure-absorption theorem applied to a raising LLM
call. -/
theorem extract_failure_absorption_witness :
    (extract_entities_and_relationships true (Except.error "boom")
      (fun _ => Option.none)).success = some false ∧
    (extract_entities_and_relationships true (Except.error "boom")
      (fun _ => Option.none)).entities = .arr [] ∧
    (extract_entities_and_relationships true (Except.error "boom")
      (fun _ => Option.none)).relationships = .arr [] ∧
    (extract_entities_and_relationships true (Except.error "boom")
      (fun _ => Option.none)).error ≠ Option.none :=
  extract_failure_absorption (Except.error "boom") (fun _ => Option.none)
    (Or.inl ⟨"boom", rfl⟩)

/-! ## The end-to-end ingestion scenario (claim C1)

The spec's §8.7 scenario: three extracted entities and one `works for`
relationship, ingested into a freshly connected, empty embedded backend. -/

def scenarioStart : EGM := { graph := emptyGraph, file := Option.none, connected := true }

def scenarioEntities : List EntityRec :=
  [{ name := "Acme Corp", type := "Organization", description := "" },
   { name := "John Smith", type := "Person", description := "" },
   { name := "New York", type := "Location", description := "" }]

def scenarioRels : List RelRec :=
  [{ source := "John Smith", target := "Acme Corp", type := "works for"
     description := "" }]

def scenarioFinal : EGM :=
  processExtraction scenarioStart "document.txt" scenarioEntities scenarioRels
    "2024-01-01T00:00:00"

/-- C1 counterexample: on the code, the scenario does not leave 3 nodes
(the relationship loop hard-codes both endpoint types to `"Entity"`, so two
stub nodes are auto-created, for 5 nodes total), and
`get_entity_relationships("John Smith")` returns the empty list (the
name-scan resolves to `Person:John Smith`, which carries no edges) rather
than one outgoing relationship. -/
theorem process_scenario_counterexample :
    scenarioFinal.graph.nodes.length ≠ 3 ∧
    get_entity_relationships scenarioFinal "John Smith" Option.none = [] := by
  decide

/-- C1 amended: the scenario yields 5 nodes — the three typed entities plus
the stub endpoints `Entity:John Smith` and `Entity:Acme Corp` — and exactly
one edge, typed `WORKS_FOR`, between the two stubs;
`get_entity_relationships("John Smith")` (untyped) returns `[]` because the
first name match is the edge-less `Person:John Smith`, while the single
outgoing `WORKS_FOR` relationship to "Acme Corp" lives on the `Entity` stub
and is returned only for the typed query. -/
theorem process_scenario_amended :
    scenarioFinal.graph.nodes.map Prod.fst =
      ["Organization:Acme Corp", "Person:John Smith", "Location:New York",
       "Entity:John Smith", "Entity:Acme Corp"] ∧
    scenarioFinal.graph.edges.map (fun e => (e.1, e.2.1, dictGet e.2.2 "type")) =
      [("Entity:John Smith", "Entity:Acme Corp", some (PyVal.str "WORKS_FOR"))] ∧
    get_entity_relationships scenarioFinal "John Smith" Option.none = [] ∧
    get_entity_relationships scenarioFinal "John Smith" (some "Entity") =
      [{ relationship := .str "WORKS_FOR", entity := .str "Acme Corp"
         labels := [.str "Entity"], direction := "outgoing" }] := by
  decide

/-! ## Chunk counting (claim C2) -/

theorem chunkGo_length (text : List Char) (size step start : Nat) (hstep : 0 < step) :
    (chunkGo text size step start).length = ceilDiv (text.length - start) step := by
  rw [chunkGo]
  split
  · rename_i h
    have ih := chunkGo_length text size step (start + step) hstep
    rw [List.length_cons, ih]
    unfold ceilDiv
    have hr : 0 < text.length - start := by omega
    have e1 : text.length - start + step - 1 = (text.length - start - 1) + step := by omega
    rw [e1, Nat.add_div_right _ hstep]
    rcases Nat.le_total step (text.length - start) with hle | hle
    · have e2 : text.length - (start + step) + step - 1 = text.length - start - 1 := by omega
      rw [e2]
    · have e2 : text.length - (start + step) = 0 := by omega
      rw [e2]
      have e3 : (0 + step - 1) / step = 0 := Nat.div_eq_of_lt (by omega)
      have e4 : (text.length - start - 1) / step = 0 := Nat.div_eq_of_lt (by omega)
      omega
  · rename_i h
    have : text.length - start = 0 := by omega
    rw [this]
    simp [ceilDiv, Nat.div_eq_of_lt, hstep]
termination_by text.length - start
decreasing_by omega

/-- C2 counterexample: the spec's chunk-count formula fails on the code.
For the 10-character text `"0123456789"` with `size=5`, `overlap=2` the
loop emits 4 chunks while `ceil((len - overlap) / (size - overlap))` is 3;
and with `size=12`, `overlap=5` a non-empty text shorter than `size` still
yields 2 chunks, not 1. -/
theorem chunk_count_counterexample :
    (chunk_text "0123456789" 5 2).length ≠ ceilDiv (10 - 2) (5 - 2) ∧
    (chunk_text "0123456789" 12 5).length ≠ 1 := by
  constructor
  · have h : (chunk_text "0123456789" 5 2).length = 4 := by simp [chunk_text, chunkGo]
    rw [h]
    decide
  · have h : (chunk_text "0123456789" 12 5).length = 2 := by simp [chunk_text, chunkGo]
    rw [h]
    decide

/-- C2 amended: for `size > overlap > 0`, `chunk_text` returns exactly
`ceil(len(text) / (size - overlap))` chunks (not
`ceil((len(text) - overlap) / (size - overlap))`); in particular a
non-empty text yields exactly one chunk iff `len(text) <= size - overlap`,
not iff it is shorter than `size`. -/
theorem chunk_text_count (text : String) (size overlap : Nat)
    (_h1 : 0 < overlap) (h2 : overlap < size) :
    (chunk_text text size overlap).length = ceilDiv text.length (size - overlap) := by
  have hstep : 0 < size - overlap := by omega
  have h := chunkGo_length text.data size (size - overlap) 0 hstep
  rw [Nat.sub_zero] at h
  unfold chunk_text
  rw [List.length_map, h]
  rfl

/-- C2 witness: the amended count at `"0123456789"`, `size=5`, `overlap=2`
(4 chunks). -/
theorem chunk_text_count_witness :
    (chunk_text "0123456789" 5 2).length = ceilDiv "0123456789".length (5 - 2) :=
  chunk_text_count "0123456789" 5 2 (by decide) (by decide)

/-! ## Dict and node-table lemmas (claim C4) -/

theorem dictGet_dictSet_self (d : PyDict) (k : String) (v : PyVal) :
    dictGet (dictSet d k v) k = some v := by
  induction d with
  | nil => simp [dictSet, dictGet]
  | cons p rest ih =>
      by_cases h : p.1 = k
      · simp [dictSet, dictGet, h]
      · simp [dictSet, dictGet, h, ih]

theorem dictGet_dictSet_ne (d : PyDict) {k' k : String} (h : k' ≠ k) (v : PyVal) :
    dictGet (dictSet d k' v) k = dictGet d k := by
  induction d with
  | nil => simp [dictSet, dictGet, h]
  | cons p rest ih =>
      by_cases hp : p.1 = k'
      · simp [dictSet, dictGet, hp, h]
      · simp [dictSet, dictGet, hp, ih]

theorem mem_keys_dictSet (d : PyDict) (k : String) (v : PyVal) (x : String) :
    x ∈ (dictSet d k v).map Prod.fst ↔ x = k ∨ x ∈ d.map Prod.fst := by
  induction d with
  | nil => simp [dictSet]
  | cons p rest ih =>
      by_cases hp : p.1 = k
      · subst hp
        simp [dictSet]
      · simp only [dictSet, hp, if_false, List.map_cons, List.mem_cons, ih]
        tauto

theorem dictGet_dictUpdate_notMem (d : PyDict) {u : PyDict} {k : String}
    (h : k ∉ u.map Prod.fst) : dictGet (dictUpdate d u) k = dictGet d k := by
  induction u generalizing d with
  | nil => rfl
  | cons p rest ih =>
      simp only [List.map_cons, List.mem_cons, not_or] at h
      show dictGet (dictUpdate (dictSet d p.1 p.2) rest) k = dictGet d k
      rw [ih (dictSet d p.1 p.2) h.2, dictGet_dictSet_ne d (fun he => h.1 he.symm) p.2]

theorem filter_key_of_hasNode_false {ns : List (String × PyDict)} {nid : String}
    (h : ns.any (fun p => p.1 = nid) = false) :
    ns.filter (fun p => p.1 = nid) = [] := by
  induction ns with
  | nil => rfl
  | cons p rest ih =>
      simp only [List.any_cons, Bool.or_eq_false_iff] at h
      simp [List.filter_cons, h.1, ih h.2]

theorem length_filter_key_map_modify (ns : List (String × PyDict)) (nid : String)
    (f : PyDict → PyDict) :
    ((ns.map (fun p => if p.1 = nid then (p.1, f p.2) else p)).filter
        (fun p => p.1 = nid)).length =
      (ns.filter (fun p => p.1 = nid)).length := by
  induction ns with
  | nil => rfl
  | cons p rest ih =>
      by_cases hp : p.1 = nid
      · simp [List.filter_cons, hp, ih]
      · simp [List.filter_cons, hp, ih]

theorem find?_key_append_map {ns : List (String × PyDict)} {nid : String}
    (h : ns.any (fun p => p.1 = nid) = false) (A : PyDict) (f : PyDict → PyDict) :
    ((ns ++ [(nid, A)]).map (fun p => if p.1 = nid then (p.1, f p.2) else p)).find?
        (fun p => p.1 = nid) = some (nid, f A) := by
  induction ns with
  | nil => simp [List.find?]
  | cons p rest ih =>
      simp only [List.any_cons, Bool.or_eq_false_iff] at h
      have hp : (p.1 = nid) = False := by
        simpa using h.1
      simp only [List.cons_append, List.map_cons, hp]
      rw [List.find?_cons_of_neg, ih h.2]
      simp [hp]

/-- C4 counterexample: the claim fails when the second call's `properties`
dict itself carries a `created` key — the merge `nodes[id].update(attrs)`
then overwrites the stored creation timestamp. -/
theorem create_entity_created_overwrite_counterexample :
    (dictGet (nodeAttrs (create_entity
        (create_entity ⟨emptyGraph, Option.none, true⟩ "A" "T" [] Option.none "T1").2
        "A" "T" [("created", PyVal.str "EVIL")] Option.none "T2").2.graph "T:A")
      "created" = some (.str "EVIL")) ∧
    some (PyVal.str "EVIL") ≠ some (PyVal.str "T1") := by
  decide

/-- C4 amended: upserting a fresh `(name, type)` twice leaves exactly one
node with that identity key; the second call sets `updated` to its own
timestamp and preserves the `created` timestamp of the first call —
provided the second call's `properties` do not themselves contain a
`created` key (which the merge would copy over the stored one). -/
theorem create_entity_new_node (s : EGM) (name ty : String) (props : PyDict)
    (src : Option PyVal) (now : String) (hc : s.connected = true)
    (hn : hasNode s.graph (ty ++ ":" ++ name) = false) :
    (create_entity s name ty props src now).1 = true ∧
    (create_entity s name ty props src now).2.graph =
      addNode s.graph (ty ++ ":" ++ name)
        (dictSet (dictSet (dictSet (dictSet props "name" (.str name)) "type" (.str ty))
          "source" (src.getD PyVal.none)) "created" (.str now)) ∧
    (create_entity s name ty props src now).2.connected = true := by
  rw [create_entity, hc]
  simp [hn, persistOp]

theorem create_entity_existing_node (s : EGM) (name ty : String) (props : PyDict)
    (src : Option PyVal) (now : String) (hc : s.connected = true)
    (hn : hasNode s.graph (ty ++ ":" ++ name) = true) :
    (create_entity s name ty props src now).1 = true ∧
    (create_entity s name ty props src now).2.graph =
      modifyNode s.graph (ty ++ ":" ++ name)
        (fun d => dictSet (dictUpdate d
          (dictSet (dictSet (dictSet props "name" (.str name)) "type" (.str ty))
            "source" (src.getD PyVal.none))) "updated" (.str now)) ∧
    (create_entity s name ty props src now).2.connected = true := by
  rw [create_entity, hc]
  simp [hn, persistOp]

theorem create_entity_idempotent_upsert (s : EGM) (name ty : String)
    (p1 p2 : PyDict) (src1 src2 : Option PyVal) (t1 t2 : String)
    (hconn : s.connected = true)
    (hfresh : hasNode s.graph (ty ++ ":" ++ name) = false)
    (hp2 : "created" ∉ p2.map Prod.fst) :
    (create_entity s name ty p1 src1 t1).1 = true ∧
    (create_entity (create_entity s name ty p1 src1 t1).2 name ty p2 src2 t2).1 = true ∧
    (((create_entity (create_entity s name ty p1 src1 t1).2 name ty p2 src2
        t2).2.graph.nodes.filter (fun p => p.1 = ty ++ ":" ++ name)).length = 1) ∧
    dictGet (nodeAttrs (create_entity (create_entity s name ty p1 src1 t1).2 name ty p2
        src2 t2).2.graph (ty ++ ":" ++ name)) "created" = some (.str t1) ∧
    dictGet (nodeAttrs (create_entity (create_entity s name ty p1 src1 t1).2 name ty p2
        src2 t2).2.graph (ty ++ ":" ++ name)) "updated" = some (.str t2) := by
  obtain ⟨hok1, hg1, hc1⟩ := create_entity_new_node s name ty p1 src1 t1 hconn hfresh
  set nid := ty ++ ":" ++ name with hnid
  set A1 := dictSet (dictSet (dictSet (dictSet p1 "name" (.str name)) "type" (.str ty))
      "source" (src1.getD PyVal.none)) "created" (.str t1) with hA1
  set s1 := (create_entity s name ty p1 src1 t1).2 with hs1
  have hanyfalse : s.graph.nodes.any (fun p => p.1 = nid) = false := hfresh
  have hn1 : hasNode s1.graph nid = true := by
    rw [hg1, hasNode, addNode]
    simp
  obtain ⟨hok2, hg2, -⟩ := create_entity_existing_node s1 name ty p2 src2 t2 hc1 hn1
  set A2 := dictSet (dictSet (dictSet p2 "name" (.str name)) "type" (.str ty))
      "source" (src2.getD PyVal.none) with hA2
  set s2 := (create_entity s1 name ty p2 src2 t2).2 with hs2
  have hg2' : s2.graph = modifyNode (addNode s.graph nid A1) nid
      (fun d => dictSet (dictUpdate d A2) "updated" (.str t2)) := by
    rw [hg2, hg1]
  have hfind : s2.graph.nodes.find? (fun p => p.1 = nid) =
      some (nid, dictSet (dictUpdate A1 A2) "updated" (.str t2)) := by
    rw [hg2']
    simp only [modifyNode, addNode]
    exact find?_key_append_map hanyfalse A1
      (fun d => dictSet (dictUpdate d A2) "updated" (PyVal.str t2))
  have hattrs : nodeAttrs s2.graph nid = dictSet (dictUpdate A1 A2) "updated" (.str t2) := by
    rw [nodeAttrs, hfind]
    rfl
  have hkeys : "created" ∉ A2.map Prod.fst := by
    rw [hA2]
    intro hmem
    rcases (mem_keys_dictSet _ _ _ _).mp hmem with h | hmem
    · exact absurd h (by decide)
    rcases (mem_keys_dictSet _ _ _ _).mp hmem with h | hmem
    · exact absurd h (by decide)
    rcases (mem_keys_dictSet _ _ _ _).mp hmem with h | hmem
    · exact absurd h (by decide)
    · exact hp2 hmem
  refine ⟨hok1, hok2, ?_, ?_, ?_⟩
  · rw [hg2']
    simp only [modifyNode, addNode]
    rw [length_filter_key_map_modify (s.graph.nodes ++ [(nid, A1)]) nid
      (fun d => dictSet (dictUpdate d A2) "updated" (PyVal.str t2))]
    simp [List.filter_append, filter_key_of_hasNode_false hanyfalse]
  · rw [hattrs, dictGet_dictSet_ne _ (by decide), dictGet_dictUpdate_notMem _ hkeys, hA1,
      dictGet_dictSet_self]
  · rw [hattrs, dictGet_dictSet_self]

/-- C4 witness: the upsert theorem at a concrete fresh entity. -/
theorem create_entity_idempotent_upsert_witness :
    (create_entity ⟨emptyGraph, Option.none, true⟩ "A" "T" [] Option.none "T1").1 = true ∧
    (create_entity (create_entity ⟨emptyGraph, Option.none, true⟩ "A" "T" [] Option.none
      "T1").2 "A" "T" [("description", .str "d")] Option.none "T2").1 = true ∧
    (((create_entity (create_entity ⟨emptyGraph, Option.none, true⟩ "A" "T" [] Option.none
      "T1").2 "A" "T" [("description", .str "d")] Option.none
        "T2").2.graph.nodes.filter (fun p => p.1 = "T" ++ ":" ++ "A")).length = 1) ∧
    dictGet (nodeAttrs (create_entity (create_entity ⟨emptyGraph, Option.none, true⟩ "A"
      "T" [] Option.none "T1").2 "A" "T" [("description", .str "d")] Option.none
        "T2").2.graph ("T" ++ ":" ++ "A")) "created" = some (.str "T1") ∧
    dictGet (nodeAttrs (create_entity (create_entity ⟨emptyGraph, Option.none, true⟩ "A"
      "T" [] Option.none "T1").2 "A" "T" [("description", .str "d")] Option.none
        "T2").2.graph ("T" ++ ":" ++ "A")) "updated" = some (.str "T2") :=
  create_entity_idempotent_upsert ⟨emptyGraph, Option.none, true⟩ "A" "T" []
    [("description", .str "d")] Option.none Option.none "T1" "T2" rfl (by decide)
    (by decide)

/-! ## Typed entity lookup (claim C5) -/

/-- A state with a single `Person:Alice` node, used to exhibit the typed
lookup falling back across types. -/
def lookupDemo : EGM :=
  { graph := ⟨[("Person:Alice",
      [("name", .str "Alice"), ("type", .str "Person"), ("source", PyVal.none)])], []⟩
    file := Option.none
    connected := true }

/-- C5 counterexample: no `Organization:Alice` node exists, yet
`get_entity("Alice", "Organization")` does not return `None` — the code
falls back to the untyped name scan and returns the `Person:Alice` node. -/
theorem get_entity_typed_counterexample :
    hasNode lookupDemo.graph ("Organization" ++ ":" ++ "Alice") = false ∧
    get_entity lookupDemo "Alice" (some "Organization") =
      some [("name", .str "Alice"), ("type", .str "Person"), ("source", PyVal.none)] := by
  decide

/-- C5 amended: with a type given, `get_entity` returns the node at the
exact identity key when it exists; when it does not, the call falls back to
a linear scan over all nodes and returns the first node whose `name`
attribute matches, regardless of its type — it returns `None` only when no
node at all carries the requested name. -/
theorem get_entity_typed_lookup (s : EGM) (name ty : String)
    (hc : s.connected = true) :
    (hasNode s.graph (ty ++ ":" ++ name) = true →
      get_entity s name (some ty) = some (nodeAttrs s.graph (ty ++ ":" ++ name))) ∧
    (hasNode s.graph (ty ++ ":" ++ name) = false →
      get_entity s name (some ty) =
        (s.graph.nodes.find?
          (fun p => dictGet p.2 "name" = some (.str name))).map Prod.snd) ∧
    (get_entity s name (some ty) = Option.none ↔
      (hasNode s.graph (ty ++ ":" ++ name) = false ∧
        ∀ p ∈ s.graph.nodes, dictGet p.2 "name" ≠ some (.str name))) := by
  rw [get_entity, hc]
  simp only [Bool.true_eq_false, if_false]
  by_cases hn : hasNode s.graph (ty ++ ":" ++ name) = true
  · refine ⟨fun _ => by simp [hn], fun hfalse => by simp [hn] at hfalse, ?_⟩
    simp [hn]
  · have hn' : hasNode s.graph (ty ++ ":" ++ name) = false := by
      simpa using hn
    refine ⟨fun htrue => by simp [htrue] at hn', fun _ => by simp [hn'], ?_⟩
    simp [hn', Option.map_eq_none', List.find?_eq_none]

/-- C5 witness: the amended lookup theorem applied to the demo state. -/
theorem get_entity_typed_lookup_witness :
    get_entity lookupDemo "Alice" (some "Organization") =
      (lookupDemo.graph.nodes.find?
        (fun p => dictGet p.2 "name" = some (.str "Alice"))).map Prod.snd :=
  (get_entity_typed_lookup lookupDemo "Alice" "Organization" rfl).2.1 (by decide)

/-! ## Aggregation dedup (claim C6) -/

theorem firstWins_nil : firstWins [] = [] := by
  rw [firstWins]

theorem firstWins_cons (e : EntityRec) (rest : List EntityRec) :
    firstWins (e :: rest) =
      e :: firstWins (rest.filter (fun e2 => entityKey e2 ≠ entityKey e)) := by
  rw [firstWins]

theorem mem_of_mem_firstWins (l : List EntityRec) (x : EntityRec) :
    x ∈ firstWins l → x ∈ l := by
  induction l using firstWins.induct with
  | case1 =>
      intro hx
      rw [firstWins] at hx
      exact absurd hx (List.not_mem_nil x)
  | case2 e rest ih =>
      intro hx
      rw [firstWins] at hx
      rcases List.mem_cons.mp hx with rfl | hx'
      · exact List.mem_cons_self _ _
      · exact List.mem_cons_of_mem _ (List.mem_of_mem_filter (ih hx'))

theorem nodup_keys_firstWins (l : List EntityRec) :
    ((firstWins l).map entityKey).Nodup := by
  induction l using firstWins.induct with
  | case1 =>
      rw [firstWins]
      simp
  | case2 e rest ih =>
      rw [firstWins]
      simp only [List.map_cons, List.nodup_cons]
      refine ⟨?_, ih⟩
      intro hmem
      simp only [List.mem_map] at hmem
      obtain ⟨y, hy, hkey⟩ := hmem
      have hy' := mem_of_mem_firstWins _ y hy
      have hne := List.of_mem_filter hy'
      simp only [ne_eq, decide_not, Bool.not_eq_eq_eq_not, Bool.not_true,
        decide_eq_false_iff_not] at hne
      exact hne hkey

theorem foldl_entStep_map_snd (l : List EntityRec) (acc : List (String × EntityRec)) :
    (l.foldl entStep acc).map Prod.snd =
      acc.map Prod.snd ++
        firstWins (l.filter (fun e => !(acc.any (fun p => p.1 = entityKey e)))) := by
  induction l generalizing acc with
  | nil =>
      simp only [List.filter_nil, List.foldl_nil, firstWins_nil, List.append_nil]
  | cons e rest ih =>
      by_cases hmem : acc.any (fun p => p.1 = entityKey e) = true
      · rw [List.foldl_cons]
        have hstep : entStep acc e = acc := by
          unfold entStep
          rw [hmem]
          simp
        have hcond : (!(acc.any (fun p => p.1 = entityKey e))) = false := by
          rw [hmem]
          rfl
        rw [hstep, ih, List.filter_cons, hcond]
        simp
      · have hmem' : acc.any (fun p => p.1 = entityKey e) = false := by
          cases h : acc.any (fun p => p.1 = entityKey e) with
          | false => rfl
          | true => exact absurd h hmem
        rw [List.foldl_cons]
        have hstep : entStep acc e = acc ++ [(entityKey e, e)] := by
          unfold entStep
          rw [hmem']
          simp
        have hcond : (!(acc.any (fun p => p.1 = entityKey e))) = true := by
          rw [hmem']
          rfl
        rw [hstep, ih, List.filter_cons, hcond]
        simp only [if_pos]
        rw [firstWins_cons]
        have hfilters : rest.filter
            (fun x => !((acc ++ [(entityKey e, e)]).any (fun p => p.1 = entityKey x))) =
          (rest.filter (fun x => !(acc.any (fun p => p.1 = entityKey x)))).filter
            (fun x => entityKey x ≠ entityKey e) := by
          rw [List.filter_filter]
          apply List.filter_congr
          intro x _
          simp only [List.any_append, List.any_cons, List.any_nil, Bool.or_false,
            Bool.not_or, ne_eq, decide_not]
          rcases eq_or_ne (entityKey x) (entityKey e) with he | he
          · simp [he]
          · simp [he, Ne.symm he]
        rw [hfilters]
        simp

theorem aggLoop_characterization (results : List ChunkResult)
    (acc : List (String × EntityRec)) (rels : List RelRec) :
    aggLoop results acc rels =
      (((results.filter truthySuccess).flatMap (fun r => r.entities)).foldl entStep acc,
       rels ++ (results.filter truthySuccess).flatMap (fun r => r.relationships)) := by
  induction results generalizing acc rels with
  | nil => simp [aggLoop]
  | cons r rest ih =>
      rw [aggLoop]
      by_cases ht : truthySuccess r = true
      · rw [if_pos ht, ih, List.filter_cons_of_pos ht]
        simp [List.foldl_append]
      · have ht' : truthySuccess r = false := by
          simpa using ht
        rw [if_neg (by simp [ht']), ih, List.filter_cons_of_neg (by simp [ht'])]

/-- C6: aggregation dedup is first-wins on the pre-normalization key — the
aggregated entity list of `extract_from_chunks` equals the first-wins
dedup, by `f"{name}_{type}"` key, of the entity stream of the successful
chunks in order (later entities with an already-seen key are dropped, not
merged), and consequently contains at most one entity per key. -/
theorem extract_from_chunks_dedup (results : List ChunkResult) :
    (extract_from_chunks results).entities = firstWins (successfulEntities results) ∧
    ((extract_from_chunks results).entities.map entityKey).Nodup := by
  have h1 : (extract_from_chunks results).entities =
      firstWins (successfulEntities results) := by
    unfold extract_from_chunks
    rw [aggLoop_characterization]
    simp only []
    rw [foldl_entStep_map_snd]
    simp only [List.map_nil, List.nil_append, List.any_nil, Bool.not_false,
      successfulEntities]
    congr 1
    exact List.filter_true _
  exact ⟨h1, h1 ▸ nodup_keys_firstWins _⟩

/-! ## Name normalization idempotence (claim C3)

ASCII character-level facts about `Char.toLower` / `Char.toUpper`, then
fixed-point lemmas for stripping and title-casing. -/

theorem char_eq_iff_toNat {a b : Char} : a = b ↔ a.toNat = b.toNat := by
  constructor
  · intro h
    rw [h]
  · intro h
    have h2 := congrArg Char.ofNat h
    rwa [Char.ofNat_toNat, Char.ofNat_toNat] at h2

theorem toNat_ofNat_valid (n : Nat) (h : n < 55296) : (Char.ofNat n).toNat = n := by
  rw [Char.ofNat, dif_pos (Or.inl h)]
  rfl

theorem toNat_toLower (c : Char) :
    c.toLower.toNat = if 65 ≤ c.toNat ∧ c.toNat ≤ 90 then c.toNat + 32 else c.toNat := by
  rw [Char.toLower]
  split
  · rename_i h
    exact toNat_ofNat_valid _ (by omega)
  · rfl

theorem toNat_toUpper (c : Char) :
    c.toUpper.toNat = if 97 ≤ c.toNat ∧ c.toNat ≤ 122 then c.toNat - 32 else c.toNat := by
  rw [Char.toUpper]
  split
  · rename_i h
    exact toNat_ofNat_valid _ (by omega)
  · rfl

theorem isWhitespace_iff (c : Char) :
    c.isWhitespace = true ↔
      (c.toNat = 32 ∨ c.toNat = 9 ∨ c.toNat = 13 ∨ c.toNat = 10) := by
  show (c = ' ' || c = '\t' || c = '\r' || c = '\n') = true ↔ _
  have e1 : (' ').toNat = 32 := rfl
  have e2 : ('\t').toNat = 9 := rfl
  have e3 : ('\r').toNat = 13 := rfl
  have e4 : ('\n').toNat = 10 := rfl
  simp only [Bool.or_eq_true, decide_eq_true_eq, char_eq_iff_toNat, e1, e2, e3, e4]
  tauto

theorem isAlpha_iff (c : Char) :
    c.isAlpha = true ↔
      ((65 ≤ c.toNat ∧ c.toNat ≤ 90) ∨ (97 ≤ c.toNat ∧ c.toNat ≤ 122)) := by
  show (c.isUpper || c.isLower) = true ↔ _
  show ((c.val ≥ 65 && c.val ≤ 90) || (c.val ≥ 97 && c.val ≤ 122)) = true ↔ _
  have hle : ∀ (a b : UInt32), (a ≤ b) ↔ a.toNat ≤ b.toNat := fun a b => Iff.rfl
  simp only [Bool.or_eq_true, Bool.and_eq_true, decide_eq_true_eq, ge_iff_le, hle]
  rfl

theorem bool_eq_of_iff {a b : Bool} (h : a = true ↔ b = true) : a = b := by
  cases a <;> cases b <;> simp_all

theorem isSp_toLower (c : Char) : isSp c.toLower = isSp c := by
  apply bool_eq_of_iff
  rw [isSp, isSp, isWhitespace_iff, isWhitespace_iff, toNat_toLower]
  split <;> omega

theorem isSp_toUpper (c : Char) : isSp c.toUpper = isSp c := by
  apply bool_eq_of_iff
  rw [isSp, isSp, isWhitespace_iff, isWhitespace_iff, toNat_toUpper]
  split <;> omega

theorem isAlpha_toLower (c : Char) : c.toLower.isAlpha = c.isAlpha := by
  apply bool_eq_of_iff
  rw [isAlpha_iff, isAlpha_iff, toNat_toLower]
  split <;> omega

theorem isAlpha_toUpper (c : Char) : c.toUpper.isAlpha = c.isAlpha := by
  apply bool_eq_of_iff
  rw [isAlpha_iff, isAlpha_iff, toNat_toUpper]
  split <;> omega

theorem toLower_toLower (c : Char) : c.toLower.toLower = c.toLower := by
  rw [char_eq_iff_toNat, toNat_toLower, toNat_toLower]
  split_ifs <;> omega

theorem toUpper_toUpper (c : Char) : c.toUpper.toUpper = c.toUpper := by
  rw [char_eq_iff_toNat, toNat_toUpper, toNat_toUpper]
  split_ifs <;> omega

/-- Characters related by at most a case change have the same whitespace
status. -/
def spEq (a b : Char) : Prop := isSp a = isSp b

theorem titleGo_spEq (b : Bool) (l : List Char) :
    List.Forall₂ spEq l (titleGo b l) := by
  induction l generalizing b with
  | nil => exact List.Forall₂.nil
  | cons c rest ih =>
      rw [titleGo]
      by_cases ha : c.isAlpha = true
      · rw [if_pos ha]
        refine List.Forall₂.cons ?_ (ih true)
        cases b
        · simp only [Bool.false_eq_true, if_false]
          exact (isSp_toUpper c).symm
        · simp only [if_true]
          exact (isSp_toLower c).symm
      · rw [if_neg ha]
        exact List.Forall₂.cons rfl (ih false)

theorem dropWhile_fix_of_spEq {l m : List Char} (h : List.Forall₂ spEq l m)
    (hl : l.dropWhile isSp = l) : m.dropWhile isSp = m := by
  cases h with
  | nil => rfl
  | cons hab hrest =>
      rename_i a b lw mw
      have hlen : (lw.dropWhile isSp).length ≤ lw.length :=
        List.Sublist.length_le (List.dropWhile_sublist _)
      have ha : isSp a = false := by
        cases hsp : isSp a with
        | false => rfl
        | true =>
            rw [List.dropWhile_cons, hsp] at hl
            simp only [if_true] at hl
            have h2 := congrArg List.length hl
            simp at h2
            omega
      have hb : isSp b = false := by
        rw [← hab]
        exact ha
      rw [List.dropWhile_cons, hb]
      simp

theorem rstrip_fix_of_spEq {l m : List Char} (h : List.Forall₂ spEq l m)
    (hl : rstripChars l = l) : rstripChars m = m := by
  have hl' : l.reverse.dropWhile isSp = l.reverse := by
    have h2 := congrArg List.reverse hl
    rwa [rstripChars, List.reverse_reverse] at h2
  have hrev : List.Forall₂ spEq l.reverse m.reverse := List.rel_reverse h
  have hm' := dropWhile_fix_of_spEq hrev hl'
  rw [rstripChars, hm', List.reverse_reverse]

theorem dropWhile_isSp_idem (l : List Char) :
    (l.dropWhile isSp).dropWhile isSp = l.dropWhile isSp := by
  induction l with
  | nil => rfl
  | cons c rest ih =>
      cases h : isSp c with
      | true => simpa [List.dropWhile_cons, h] using ih
      | false => simp [List.dropWhile_cons, h]

theorem lstrip_of_prefix {x a : List Char} (hpre : x <+: a)
    (ha : a.dropWhile isSp = a) : x.dropWhile isSp = x := by
  cases x with
  | nil => rfl
  | cons c x' =>
      obtain ⟨t, ht⟩ := hpre
      have hc : isSp c = false := by
        cases h : isSp c with
        | false => rfl
        | true =>
            rw [← ht, List.cons_append, List.dropWhile_cons, h] at ha
            simp only [if_true] at ha
            have hlen := congrArg List.length ha
            have hsub : ((x' ++ t).dropWhile isSp).length ≤ (x' ++ t).length :=
              List.Sublist.length_le (List.dropWhile_sublist _)
            simp [List.length_append] at hlen hsub
            omega
      rw [List.dropWhile_cons, hc]
      simp

theorem stripChars_fix (l : List Char) : stripChars (stripChars l) = stripChars l := by
  set a := lstripChars l with ha
  have h1 : lstripChars a = a := dropWhile_isSp_idem l
  have h2 : rstripChars (rstripChars a) = rstripChars a := by
    rw [rstripChars, rstripChars, List.reverse_reverse, dropWhile_isSp_idem]
  have hpre : rstripChars a <+: a := by
    rw [rstripChars]
    have hsuf : a.reverse.dropWhile isSp <:+ a.reverse := List.dropWhile_suffix _
    have h4 := List.reverse_prefix.mpr hsuf
    rwa [List.reverse_reverse] at h4
  have h3 : lstripChars (rstripChars a) = rstripChars a :=
    lstrip_of_prefix hpre h1
  show stripChars (rstripChars a) = rstripChars a
  rw [stripChars, h3, h2]

theorem lstrip_rstrip_fix_of_strip_fix {z : List Char} (hz : stripChars z = z) :
    lstripChars z = z ∧ rstripChars z = z := by
  have h1 : (stripChars z).length ≤ (lstripChars z).length := by
    rw [stripChars, rstripChars, List.length_reverse]
    have h0 : (List.dropWhile isSp (lstripChars z).reverse).length ≤
        (lstripChars z).reverse.length :=
      List.Sublist.length_le (List.dropWhile_sublist _)
    simpa using h0
  have h2 : (lstripChars z).length ≤ z.length :=
    List.Sublist.length_le (List.dropWhile_sublist _)
  have hlen : (lstripChars z).length = z.length := by
    have h5 := congrArg List.length hz
    omega
  have h3 : lstripChars z = z :=
    List.Sublist.eq_of_length (List.dropWhile_sublist _) hlen
  refine ⟨h3, ?_⟩
  have h4 := hz
  rw [stripChars, h3] at h4
  exact h4

theorem strip_titleGo (b : Bool) (z : List Char) (hz : stripChars z = z) :
    stripChars (titleGo b z) = titleGo b z := by
  obtain ⟨hl, hr⟩ := lstrip_rstrip_fix_of_strip_fix hz
  have hsp := titleGo_spEq b z
  have hl' : lstripChars (titleGo b z) = titleGo b z := dropWhile_fix_of_spEq hsp hl
  have hr' : rstripChars (titleGo b z) = titleGo b z := rstrip_fix_of_spEq hsp hr
  rw [stripChars, hl', hr']

theorem titleGo_titleGo (b : Bool) (l : List Char) :
    titleGo b (titleGo b l) = titleGo b l := by
  induction l generalizing b with
  | nil => rfl
  | cons c rest ih =>
      by_cases ha : c.isAlpha = true
      · cases b
        · rw [titleGo, if_pos ha]
          simp only [Bool.false_eq_true, if_false]
          rw [titleGo, if_pos (by rw [isAlpha_toUpper]; exact ha)]
          simp only [Bool.false_eq_true, if_false]
          rw [toUpper_toUpper, ih]
        · rw [titleGo, if_pos ha]
          simp only [if_true]
          rw [titleGo, if_pos (by rw [isAlpha_toLower]; exact ha)]
          simp only [if_true]
          rw [toLower_toLower, ih]
      · rw [titleGo, if_neg ha]
        rw [titleGo, if_neg ha, ih]

/-- C3 counterexample: the normalization pipeline is not idempotent.  For
the input `"the the a"` one pass yields `"The A"` (only the first `"the "`
article is dropped, and title-casing re-capitalizes the second), and a
second pass strips the now-leading `"The "` again, yielding `"A"`. -/
theorem normalize_idempotent_counterexample :
    normalizeName (normalizeName "the the a") ≠ normalizeName "the the a" ∧
    normalizeName "the the a" = "The A" ∧
    normalizeName (normalizeName "the the a") = "A" := by
  refine ⟨?_, by decide, by decide⟩
  decide

/-- C3 amended: `normalize(normalize(x)) = normalize(x)` holds for every
input whose once-normalized form does not again case-insensitively start
with `"the "`; when it does (as happens for inputs like `"the the a"`,
whose title-cased output starts with `"The "`), the second pass strips that
prefix again and the pipeline is not idempotent. -/
theorem normalize_idempotent_of_not_the (x : String)
    (h : ((normalizeName x).data.take 4).map Char.toLower ≠ ['t', 'h', 'e', ' ']) :
    normalizeName (normalizeName x) = normalizeName x := by
  have hz : stripChars (dropThe (stripChars x.data)) = dropThe (stripChars x.data) := by
    rw [dropThe]
    split
    · exact stripChars_fix _
    · exact stripChars_fix x.data
  have hstrip : stripChars (normChars x.data) = normChars x.data := by
    rw [normChars, titleChars]
    exact strip_titleGo false _ hz
  have hdata : (normalizeName x).data = normChars x.data := rfl
  have hdrop : dropThe (normChars x.data) = normChars x.data := by
    rw [dropThe, if_neg]
    intro hcontra
    apply h
    rw [hdata]
    exact hcontra
  have hmain : normChars (normChars x.data) = normChars x.data := by
    conv_lhs => rw [normChars, hstrip, hdrop]
    conv_lhs => rw [normChars, titleChars, titleChars]
    exact titleGo_titleGo false _
  unfold normalizeName
  congr 1

/-- C3 witness: idempotence at `"acme corp"` (normalized form `"Acme
Corp"`, which does not start with `"the "`). -/
theorem normalize_idempotent_witness :
    normalizeName (normalizeName "acme corp") = normalizeName "acme corp" :=
  normalize_idempotent_of_not_the "acme corp" (by decide)

end GraphNet
